import Mathlib

/-!
Shallow embedding of the timekeeper application (src/app.py) and proofs of
the specification claims about it.

Modelling conventions:
* timestamps are seconds (as `Int`); one hour is 3600 seconds, one day 86400;
* `datetime.time()` (the time-of-day of a timestamp) is `t % 86400`;
* `total_seconds() / 3600` becomes exact division in `ℚ`;
* the pandas `sort_values(by='Zeitstempel')` call is modelled as a stable
  sort by timestamp (`List.insertionSort`);
* the SHA-256 digest `hash_password` is passed around as a function
  parameter `hashFn : String → String`; no claim depends on its values;
* the Google-Sheets credential worksheet is a list of rows (`CredStore`)
  and the loaded credential dict of `load_employees_from_sheet` is its
  list of lower-cased, trimmed, non-empty usernames.
-/

namespace Timekeeper

/-- The six action kinds written to the log (`ACTION_*` constants in app.py). -/
inductive Action where
  | checkIn
  | checkOut
  | breakStart
  | breakEnd
  | siteVisitStart
  | siteVisitEnd
deriving DecidableEq, Repr

/-- One log row for a single employee: an action and its timestamp (seconds). -/
structure Event where
  action : Action
  timestamp : Int
deriving DecidableEq, Repr

/-- One emitted work session, as appended to `sessions` in
`calculate_work_sessions` (fields `Einstempeln`, `Ausstempeln`, `Stunden`,
`Pausenzeit`, `Außendienstzeit`; `Dauer` is the numerator of `Stunden`). -/
structure Session where
  checkIn : Int
  checkOut : Int
  hours : ℚ
  breakHours : ℚ
  siteVisitHours : ℚ
deriving DecidableEq, Repr

/-- The loop state of `calculate_work_sessions`: the accumulated session
list and the variables `check_in_time`, `break_start`, `site_visit_start`,
`total_break_time`, `total_site_visit_time`. -/
structure RState where
  sessions : List Session
  checkInTime : Option Int
  breakStart : Option Int
  siteVisitStart : Option Int
  totalBreakTime : Int
  totalSiteVisitTime : Int
deriving DecidableEq, Repr

/-- Initial loop state of `calculate_work_sessions` (app.py lines 252-257). -/
def initState : RState := ⟨[], none, none, none, 0, 0⟩

/-- One iteration of the `for _, row in employee_df.iterrows()` loop of
`calculate_work_sessions` (app.py lines 259-290). -/
def step (includeBreaks : Bool) (s : RState) (e : Event) : RState :=
  match e.action with
  | .checkIn => { s with checkInTime := some e.timestamp }
  | .checkOut =>
    match s.checkInTime with
    | some ci =>
      let dur : Int :=
        (e.timestamp - ci) - (if includeBreaks then s.totalBreakTime else 0)
      { s with
        sessions := s.sessions ++
          [⟨ci, e.timestamp, (dur : ℚ) / 3600,
            (s.totalBreakTime : ℚ) / 3600, (s.totalSiteVisitTime : ℚ) / 3600⟩],
        checkInTime := none,
        totalBreakTime := 0,
        totalSiteVisitTime := 0 }
    | none => s
  | .breakStart => { s with breakStart := some e.timestamp }
  | .breakEnd =>
    match s.breakStart with
    | some bs =>
      { s with totalBreakTime := s.totalBreakTime + (e.timestamp - bs),
               breakStart := none }
    | none => s
  | .siteVisitStart => { s with siteVisitStart := some e.timestamp }
  | .siteVisitEnd =>
    match s.siteVisitStart with
    | some vs =>
      { s with totalSiteVisitTime := s.totalSiteVisitTime + (e.timestamp - vs),
               siteVisitStart := none }
    | none => s

/-- Timestamp order used by `employee_df.sort_values(by='Zeitstempel')`. -/
def tsLE (a b : Event) : Prop := a.timestamp ≤ b.timestamp

instance : DecidableRel tsLE := fun a b => Int.decLe a.timestamp b.timestamp

instance : IsTotal Event tsLE := ⟨fun a b => Int.le_total a.timestamp b.timestamp⟩

instance : IsTrans Event tsLE := ⟨fun _ _ _ h1 h2 => le_trans h1 h2⟩

/-- Strict timestamp order; used to show that sorting a list of events with
pairwise distinct timestamps has a unique result. -/
def tsLT (a b : Event) : Prop := a.timestamp < b.timestamp

instance : IsAntisymm Event tsLT :=
  ⟨fun _ _ h1 h2 => absurd (lt_trans h1 h2) (lt_irrefl _)⟩

/-- `employee_df.sort_values(by='Zeitstempel')` (app.py line 249), modelled
as a stable sort by timestamp. -/
def sortByTimestamp (l : List Event) : List Event := List.insertionSort tsLE l

/-- The body of `calculate_work_sessions` after sorting: fold the
transition over the chronological event list. -/
def processEvents (includeBreaks : Bool) (l : List Event) : RState :=
  l.foldl (step includeBreaks) initState

/-- `calculate_work_sessions(employee_df, include_breaks)` (app.py lines
244-297): sort by timestamp, run the state-machine loop, and return the
session list with the three column sums `total_hours`,
`total_break_hours`, `total_site_hours`. -/
def calculate_work_sessions (l : List Event) (includeBreaks : Bool) :
    List Session × ℚ × ℚ × ℚ :=
  let final := processEvents includeBreaks (sortByTimestamp l)
  (final.sessions,
    (final.sessions.map Session.hours).sum,
    (final.sessions.map Session.breakHours).sum,
    (final.sessions.map Session.siteVisitHours).sum)

/-- Number of events with the given action in a list (`len(check_ins)` etc.). -/
def countAction (a : Action) (l : List Event) : Nat :=
  l.countP (fun e => e.action == a)

/-- Check-in/check-out events alternate correctly, starting from the state
`b` (`b = true` when a check-in is currently open).  Non-check events are
ignored. -/
def altCheck : Bool → List Event → Bool
  | _, [] => true
  | b, e :: es =>
    match e.action with
    | .checkIn => !b && altCheck true es
    | .checkOut => b && altCheck false es
    | _ => altCheck b es

lemma foldl_step_sessions_length (ib : Bool) :
    ∀ (l : List Event) (s : RState), altCheck s.checkInTime.isSome l = true →
      ((l.foldl (step ib) s).sessions).length
        = s.sessions.length + countAction .checkOut l := by
  intro l
  induction l with
  | nil => intro s _; simp [countAction]
  | cons e es ih =>
    intro s h
    obtain ⟨act, t⟩ := e
    cases act with
    | checkIn =>
      simp only [altCheck, Bool.and_eq_true, Bool.not_eq_true'] at h
      rw [List.foldl_cons]
      rw [ih _ (by simpa [step] using h.2)]
      simp [step, countAction, List.countP_cons]
    | checkOut =>
      simp only [altCheck, Bool.and_eq_true] at h
      obtain ⟨ci, hci⟩ := Option.isSome_iff_exists.mp h.1
      rw [List.foldl_cons]
      rw [ih _ (by simp [step, hci]; exact h.2)]
      simp [step, hci, countAction, List.countP_cons]
      omega
    | breakStart =>
      simp only [altCheck] at h
      rw [List.foldl_cons, ih _ (by simpa [step] using h)]
      simp [step, countAction, List.countP_cons]
    | breakEnd =>
      simp only [altCheck] at h
      cases hb : s.breakStart with
      | none =>
        rw [List.foldl_cons, ih _ (by simpa [step, hb] using h)]
        simp [step, hb, countAction, List.countP_cons]
      | some bs =>
        rw [List.foldl_cons, ih _ (by simpa [step, hb] using h)]
        simp [step, hb, countAction, List.countP_cons]
    | siteVisitStart =>
      simp only [altCheck] at h
      rw [List.foldl_cons, ih _ (by simpa [step] using h)]
      simp [step, countAction, List.countP_cons]
    | siteVisitEnd =>
      simp only [altCheck] at h
      cases hb : s.siteVisitStart with
      | none =>
        rw [List.foldl_cons, ih _ (by simpa [step, hb] using h)]
        simp [step, hb, countAction, List.countP_cons]
      | some vs =>
        rw [List.foldl_cons, ih _ (by simpa [step, hb] using h)]
        simp [step, hb, countAction, List.countP_cons]

lemma altCheck_count_bounds :
    ∀ (l : List Event) (b : Bool), altCheck b l = true →
      countAction .checkOut l ≤ countAction .checkIn l + b.toNat ∧
      countAction .checkIn l + b.toNat ≤ countAction .checkOut l + 1 := by
  intro l
  induction l with
  | nil => intro b _; cases b <;> simp [countAction]
  | cons e es ih =>
    intro b h
    obtain ⟨act, t⟩ := e
    cases act with
    | checkIn =>
      simp only [altCheck, Bool.and_eq_true, Bool.not_eq_true'] at h
      have hb := h.1
      have := ih true h.2
      subst hb
      simp only [countAction, List.countP_cons] at *
      simp at this ⊢
      omega
    | checkOut =>
      simp only [altCheck, Bool.and_eq_true] at h
      have hb := h.1
      have := ih false h.2
      simp only [countAction, List.countP_cons] at *
      simp [hb] at this ⊢
      omega
    | breakStart =>
      simp only [altCheck] at h
      have := ih b h
      simp only [countAction, List.countP_cons] at *
      simpa using this
    | breakEnd =>
      simp only [altCheck] at h
      have := ih b h
      simp only [countAction, List.countP_cons] at *
      simpa using this
    | siteVisitStart =>
      simp only [altCheck] at h
      have := ih b h
      simp only [countAction, List.countP_cons] at *
      simpa using this
    | siteVisitEnd =>
      simp only [altCheck] at h
      have := ih b h
      simp only [countAction, List.countP_cons] at *
      simpa using this

lemma countAction_sortByTimestamp (a : Action) (l : List Event) :
    countAction a (sortByTimestamp l) = countAction a l :=
  (List.perm_insertionSort tsLE l).countP_eq _

/-- C1: the reconstructor emits exactly one session per matched
CheckIn/CheckOut pair — `min(countCheckIn, countCheckOut)` many when the
check events alternate correctly — a CheckOut with no open check-in leaves
the state (and the session list) unchanged, and the returned totals are
sums over the emitted sessions only, so a trailing open check-in
contributes nothing to them. -/
theorem c1_session_pairing (l : List Event)
    (h : altCheck false (sortByTimestamp l) = true) :
    (calculate_work_sessions l true).1.length
        = min (countAction .checkIn l) (countAction .checkOut l) ∧
    (∀ (s : RState) (t : Int), s.checkInTime = none →
        step true s ⟨.checkOut, t⟩ = s) ∧
    (calculate_work_sessions l true).2.1
        = ((calculate_work_sessions l true).1.map Session.hours).sum ∧
    (calculate_work_sessions l true).2.2.1
        = ((calculate_work_sessions l true).1.map Session.breakHours).sum ∧
    (calculate_work_sessions l true).2.2.2
        = ((calculate_work_sessions l true).1.map Session.siteVisitHours).sum := by
  refine ⟨?_, ?_, rfl, rfl, rfl⟩
  · have hlen := foldl_step_sessions_length true (sortByTimestamp l) initState
      (by simpa [initState] using h)
    have hbounds := altCheck_count_bounds (sortByTimestamp l) false h
    have hin := countAction_sortByTimestamp .checkIn l
    have hout := countAction_sortByTimestamp .checkOut l
    have : (calculate_work_sessions l true).1.length
        = countAction .checkOut (sortByTimestamp l) := by
      simpa [initState, calculate_work_sessions, processEvents] using hlen
    rw [this]
    simp only [Bool.toNat_false, Nat.add_zero] at hbounds
    omega
  · intro s t hs
    simp [step, hs]

/-- Witness for `c1_session_pairing`: one matched pair followed by a
trailing open check-in yields exactly `min 2 1 = 1` session. -/
theorem c1_session_pairing_witness :
    altCheck false (sortByTimestamp
        [⟨.checkIn, 0⟩, ⟨.checkOut, 3600⟩, ⟨.checkIn, 7200⟩]) = true ∧
    (calculate_work_sessions
        [⟨.checkIn, 0⟩, ⟨.checkOut, 3600⟩, ⟨.checkIn, 7200⟩] true).1.length
      = min (countAction .checkIn [⟨.checkIn, 0⟩, ⟨.checkOut, 3600⟩, ⟨.checkIn, 7200⟩])
          (countAction .checkOut [⟨.checkIn, 0⟩, ⟨.checkOut, 3600⟩, ⟨.checkIn, 7200⟩]) :=
  ⟨by decide, (c1_session_pairing _ (by decide)).1⟩

/-- The duration invariant of an emitted session:
`hours = (checkOut - checkIn)/3600 - breakHours`. -/
def sessionLaw (x : Session) : Prop :=
  x.hours = ((x.checkOut : ℚ) - (x.checkIn : ℚ)) / 3600 - x.breakHours

lemma foldl_step_law :
    ∀ (l : List Event) (s : RState), (∀ x ∈ s.sessions, sessionLaw x) →
      ∀ x ∈ (l.foldl (step true) s).sessions, sessionLaw x := by
  intro l
  induction l with
  | nil => intro s hs; simpa using hs
  | cons e es ih =>
    intro s hs
    obtain ⟨act, t⟩ := e
    cases act with
    | checkIn => exact ih _ (by simpa [step] using hs)
    | checkOut =>
      cases hci : s.checkInTime with
      | none => exact ih _ (by simpa [step, hci] using hs)
      | some ci =>
        refine ih _ ?_
        simp only [List.foldl_cons, step, hci]
        intro x hx
        rcases List.mem_append.mp hx with hx | hx
        · exact hs x hx
        · rcases List.mem_singleton.mp hx with rfl
          simp only [sessionLaw, if_true]
          push_cast
          ring
    | breakStart => exact ih _ (by simpa [step] using hs)
    | breakEnd =>
      cases hb : s.breakStart with
      | none => exact ih _ (by simpa [step, hb] using hs)
      | some bs => exact ih _ (by simpa [step, hb] using hs)
    | siteVisitStart => exact ih _ (by simpa [step] using hs)
    | siteVisitEnd =>
      cases hb : s.siteVisitStart with
      | none => exact ih _ (by simpa [step, hb] using hs)
      | some vs => exact ih _ (by simpa [step, hb] using hs)

/-- C2: with breaks subtracted (`include_breaks=True`), every emitted
session satisfies `hours = (checkOut - checkIn) - breakHours` exactly, so
in particular to within 1e-9 hours; site-visit time is attributed in its
own field and never subtracted from `hours`. -/
theorem c2_duration_law (l : List Event) (x : Session)
    (hx : x ∈ (calculate_work_sessions l true).1) :
    |x.hours - (((x.checkOut : ℚ) - (x.checkIn : ℚ)) / 3600 - x.breakHours)|
      ≤ 1 / 1000000000 := by
  have hlaw : sessionLaw x := by
    refine foldl_step_law (sortByTimestamp l) initState ?_ x ?_
    · simp [initState]
    · simpa [calculate_work_sessions, processEvents] using hx
  rw [sessionLaw] at hlaw
  rw [hlaw]
  norm_num

/-- Witness for `c2_duration_law` at the session reconstructed from a
09:00–17:30 day with a half-hour break. -/
theorem c2_duration_law_witness :
    (⟨32400, 63000, 8, (1 : ℚ)/2, 0⟩ : Session)
        ∈ (calculate_work_sessions
            [⟨.checkIn, 32400⟩, ⟨.breakStart, 43200⟩,
             ⟨.breakEnd, 45000⟩, ⟨.checkOut, 63000⟩] true).1 ∧
    |(⟨32400, 63000, 8, (1 : ℚ)/2, 0⟩ : Session).hours -
        ((((⟨32400, 63000, 8, (1 : ℚ)/2, 0⟩ : Session).checkOut : ℚ)
            - ((⟨32400, 63000, 8, (1 : ℚ)/2, 0⟩ : Session).checkIn : ℚ)) / 3600
          - (⟨32400, 63000, 8, (1 : ℚ)/2, 0⟩ : Session).breakHours)|
      ≤ 1 / 1000000000 := by
  have hmem : (⟨32400, 63000, 8, (1 : ℚ)/2, 0⟩ : Session)
      ∈ (calculate_work_sessions
          [⟨.checkIn, 32400⟩, ⟨.breakStart, 43200⟩,
           ⟨.breakEnd, 45000⟩, ⟨.checkOut, 63000⟩] true).1 := by
    norm_num [calculate_work_sessions, processEvents, sortByTimestamp, tsLE,
      step, initState]
  exact ⟨hmem, c2_duration_law
    [⟨.checkIn, 32400⟩, ⟨.breakStart, 43200⟩,
     ⟨.breakEnd, 45000⟩, ⟨.checkOut, 63000⟩] _ hmem⟩

/-- Counterexample to C3 as stated: two events with identical timestamps.
The lists are permutations of one another, yet reconstruction gives one
session for CheckIn-then-CheckOut and none for CheckOut-then-CheckIn,
because the stable sort keeps tied events in their input order. -/
theorem c3_counterexample :
    ([⟨.checkOut, 0⟩, ⟨.checkIn, 0⟩] : List Event).Perm
        [⟨.checkIn, 0⟩, ⟨.checkOut, 0⟩] ∧
    (calculate_work_sessions [⟨.checkOut, 0⟩, ⟨.checkIn, 0⟩] true).1
      ≠ (calculate_work_sessions [⟨.checkIn, 0⟩, ⟨.checkOut, 0⟩] true).1 := by
  refine ⟨List.Perm.swap _ _ _, fun h => ?_⟩
  have hlen := congrArg List.length h
  norm_num [calculate_work_sessions, processEvents, sortByTimestamp, tsLE,
    step, initState] at hlen

/-- C3 (amended): when the event timestamps are pairwise distinct,
permuting the input before reconstruction yields the same reconstructed
sessions, because sorting by timestamp then has a unique result.  (With
tied timestamps the stable sort preserves the pre-sort relative order, so
permuting tied events can change the output — see the counterexample.) -/
theorem c3_order_invariance (l₁ l₂ : List Event) (hp : l₁.Perm l₂)
    (hd : l₁.Pairwise (fun a b => a.timestamp ≠ b.timestamp)) :
    calculate_work_sessions l₁ true = calculate_work_sessions l₂ true := by
  have hsym : ∀ {a b : Event},
      a.timestamp ≠ b.timestamp → b.timestamp ≠ a.timestamp :=
    fun h => Ne.symm h
  have hd₂ : l₂.Pairwise (fun a b => a.timestamp ≠ b.timestamp) :=
    (hp.pairwise_iff hsym).mp hd
  have hds₁ : (sortByTimestamp l₁).Pairwise
      (fun a b => a.timestamp ≠ b.timestamp) :=
    ((List.perm_insertionSort tsLE l₁).pairwise_iff hsym).mpr hd
  have hds₂ : (sortByTimestamp l₂).Pairwise
      (fun a b => a.timestamp ≠ b.timestamp) :=
    ((List.perm_insertionSort tsLE l₂).pairwise_iff hsym).mpr hd₂
  have hlt₁ : (sortByTimestamp l₁).Pairwise tsLT :=
    ((List.sorted_insertionSort tsLE l₁).and hds₁).imp
      (fun h => lt_of_le_of_ne h.1 h.2)
  have hlt₂ : (sortByTimestamp l₂).Pairwise tsLT :=
    ((List.sorted_insertionSort tsLE l₂).and hds₂).imp
      (fun h => lt_of_le_of_ne h.1 h.2)
  have hperm : (sortByTimestamp l₁).Perm (sortByTimestamp l₂) :=
    ((List.perm_insertionSort tsLE l₁).trans hp).trans
      (List.perm_insertionSort tsLE l₂).symm
  have hsorteq : sortByTimestamp l₁ = sortByTimestamp l₂ :=
    List.eq_of_perm_of_sorted hperm hlt₁ hlt₂
  unfold calculate_work_sessions
  rw [hsorteq]

/-- Witness for `c3_order_invariance`: swapping two distinct-timestamp
events does not change the reconstruction. -/
theorem c3_order_invariance_witness :
    ([⟨.checkOut, 3600⟩, ⟨.checkIn, 0⟩] : List Event).Perm
        [⟨.checkIn, 0⟩, ⟨.checkOut, 3600⟩] ∧
    ([⟨.checkOut, 3600⟩, ⟨.checkIn, 0⟩] : List Event).Pairwise
        (fun a b => a.timestamp ≠ b.timestamp) ∧
    calculate_work_sessions [⟨.checkOut, 3600⟩, ⟨.checkIn, 0⟩] true
      = calculate_work_sessions [⟨.checkIn, 0⟩, ⟨.checkOut, 3600⟩] true :=
  ⟨List.Perm.swap _ _ _, by decide,
    c3_order_invariance _ _ (List.Perm.swap _ _ _) (by decide)⟩

/-! ### Status engine: per-button gating of the six action handlers

Each handler looks at the last action of the employee's current day
(`get_employee_status` / the inline `today_records` computation) and only
calls `save_log` when the action is legal for that state; otherwise it
shows a warning and writes nothing. -/

/-- Gate of the "Einstempeln" button (app.py lines 782-815):
`can_check_in` stays true only when there is no record today or the last
action is a check-out. -/
def einstempelnAllowed : Option Action → Bool
  | none => true
  | some a => a == .checkOut

/-- Gate of the "Ausstempeln" button (app.py lines 818-860): allowed only
after CheckIn, BreakEnd or SiteVisitEnd. -/
def ausstempelnAllowed : Option Action → Bool
  | none => false
  | some a => a == .checkIn || a == .breakEnd || a == .siteVisitEnd

/-- Gate of the "Pause starten" button (app.py lines 867-886). -/
def pauseStartenAllowed : Option Action → Bool
  | none => false
  | some a => a == .checkIn || a == .breakEnd || a == .siteVisitEnd

/-- Gate of the "Pause beenden" button (app.py lines 889-904). -/
def pauseBeendenAllowed : Option Action → Bool
  | none => false
  | some a => a == .breakStart

/-- Gate of the "Außendienst starten" button (app.py lines 907-926). -/
def aussendienstStartenAllowed : Option Action → Bool
  | none => false
  | some a => a == .checkIn || a == .breakEnd || a == .siteVisitEnd

/-- Gate of the "Außendienst beenden" button (app.py lines 929-944). -/
def aussendienstBeendenAllowed : Option Action → Bool
  | none => false
  | some a => a == .siteVisitStart

/-- Whether the handler for action `a` writes to the log given today's
last action. -/
def allowedByHandlers (last : Option Action) : Action → Bool
  | .checkIn => einstempelnAllowed last
  | .checkOut => ausstempelnAllowed last
  | .breakStart => pauseStartenAllowed last
  | .breakEnd => pauseBeendenAllowed last
  | .siteVisitStart => aussendienstStartenAllowed last
  | .siteVisitEnd => aussendienstBeendenAllowed last

/-- The legal-next-action table of the specification (§4.2), written from
the spec's words: none/CheckOut permit only CheckIn; CheckIn, BreakEnd and
SiteVisitEnd permit CheckOut, BreakStart and SiteVisitStart; BreakStart
permits only BreakEnd; SiteVisitStart permits only SiteVisitEnd. -/
def legalNextSpec (last : Option Action) (a : Action) : Bool :=
  match last with
  | none => a == .checkIn
  | some .checkOut => a == .checkIn
  | some .checkIn => a == .checkOut || a == .breakStart || a == .siteVisitStart
  | some .breakEnd => a == .checkOut || a == .breakStart || a == .siteVisitStart
  | some .siteVisitEnd => a == .checkOut || a == .breakStart || a == .siteVisitStart
  | some .breakStart => a == .breakEnd
  | some .siteVisitStart => a == .siteVisitEnd

/-- A handler appends its event to the log exactly when the gate allows it;
a rejected action leaves the log untouched. -/
def handlerAppends (last : Option Action) (log : List Action) (a : Action) :
    List Action :=
  if allowedByHandlers last a then log ++ [a] else log

lemma allowedByHandlers_eq_legalNextSpec (last : Option Action) (a : Action) :
    allowedByHandlers last a = legalNextSpec last a := by
  cases last with
  | none => cases a <;> rfl
  | some x => cases x <;> cases a <;> rfl

/-- C4: the six button handlers implement exactly the legal-next-action
table of the spec, and an action outside that set appends nothing to the
log. -/
theorem c4_legal_actions :
    (∀ (last : Option Action) (a : Action),
        allowedByHandlers last a = legalNextSpec last a) ∧
    (∀ (last : Option Action) (a : Action) (log : List Action),
        legalNextSpec last a = false → handlerAppends last log a = log) := by
  refine ⟨allowedByHandlers_eq_legalNextSpec, ?_⟩
  intro last a log h
  rw [handlerAppends, allowedByHandlers_eq_legalNextSpec, h]
  rfl

/-- Witness for `c4_legal_actions`: a check-out during a break is rejected
and writes nothing. -/
theorem c4_legal_actions_witness :
    allowedByHandlers (some .breakStart) .checkOut
        = legalNextSpec (some .breakStart) .checkOut ∧
    handlerAppends (some .breakStart) [.checkIn, .breakStart] .checkOut
        = [.checkIn, .breakStart] :=
  ⟨c4_legal_actions.1 (some .breakStart) .checkOut,
    c4_legal_actions.2 (some .breakStart) .checkOut [.checkIn, .breakStart]
      (by decide)⟩

/-! ### Late arrival -/

/-- `WORK_START_TIME = time(9, 0)` (app.py line 13), as seconds of day. -/
def WORK_START_SECONDS : Int := 9 * 3600

/-- Time-of-day of a timestamp (`datetime.time()`), seconds of day. -/
def timeOfDay (t : Int) : Int := t % 86400

/-- `is_late_arrival(check_in_time)` (app.py lines 238-242): `None` is
never late, otherwise late iff the time-of-day is strictly after 09:00. -/
def is_late_arrival : Option Int → Bool
  | none => false
  | some t => decide (WORK_START_SECONDS < timeOfDay t)

/-- First CheckIn of a day's records (`check_ins.iloc[0]`), if any. -/
def firstCheckIn (day : List Event) : Option Int :=
  ((day.filter (fun e => e.action == .checkIn)).head?).map Event.timestamp

/-- The day-level late-arrival flag of Problem 7 (app.py lines 1061-1069):
an issue is raised iff the day has a CheckIn and its first CheckIn is late. -/
def problem7Flag (day : List Event) : Bool :=
  match firstCheckIn day with
  | some t => is_late_arrival (some t)
  | none => false

/-- C8: a day is flagged late iff the time-of-day of its first CheckIn is
strictly after the 09:00 cutoff; a check-in at or before the cutoff is not
late, and a missing check-in time is never late. -/
theorem c8_late_arrival :
    (∀ day : List Event,
        problem7Flag day = true ↔
          ∃ t, firstCheckIn day = some t ∧ WORK_START_SECONDS < timeOfDay t) ∧
    is_late_arrival none = false ∧
    (∀ t : Int, timeOfDay t ≤ WORK_START_SECONDS →
        is_late_arrival (some t) = false) := by
  refine ⟨?_, rfl, ?_⟩
  · intro day
    cases hf : firstCheckIn day with
    | none => simp [problem7Flag, hf]
    | some t => simp [problem7Flag, hf, is_late_arrival]
  · intro t h
    simp [is_late_arrival]
    omega

/-- Witness for `c8_late_arrival`: a first check-in at 08:55 (time-of-day
32100 s) is not flagged, one at 09:05 is. -/
theorem c8_late_arrival_witness :
    is_late_arrival (some 32100) = false ∧
    problem7Flag [⟨.checkIn, 32700⟩, ⟨.checkOut, 61200⟩] = true :=
  ⟨c8_late_arrival.2.2 32100 (by decide),
    (c8_late_arrival.1 [⟨.checkIn, 32700⟩, ⟨.checkOut, 61200⟩]).mpr
      ⟨32700, by decide, by decide⟩⟩

/-! ### Problem 11: long breaks (app.py lines 1102-1112) -/

/-- `(break_ends.iloc[i] - break_starts.iloc[i]).total_seconds() / 3600`. -/
def breakDurationHours (p : Int × Int) : ℚ := ((p.2 - p.1 : ℤ) : ℚ) / 3600

/-- Timestamps of the day's BreakStart events, in day order. -/
def breakStartsOf (day : List Event) : List Int :=
  (day.filter (fun e => e.action == .breakStart)).map Event.timestamp

/-- Timestamps of the day's BreakEnd events, in day order. -/
def breakEndsOf (day : List Event) : List Int :=
  (day.filter (fun e => e.action == .breakEnd)).map Event.timestamp

/-- The `for i in range(min(len, len)) ... break` loop: the duration of
the first index-paired (start, end) couple exceeding two hours. -/
def firstLongBreak : List (Int × Int) → Option ℚ
  | [] => none
  | p :: rest =>
    if 2 < breakDurationHours p then some (breakDurationHours p)
    else firstLongBreak rest

/-- The "Lange Pause" issues Problem 11 emits for one day's records. -/
def problem11Issues (day : List Event) : List (String × ℚ) :=
  match firstLongBreak ((breakStartsOf day).zip (breakEndsOf day)) with
  | some d => [("Lange Pause", d)]
  | none => []

lemma firstLongBreak_eq_none_iff (l : List (Int × Int)) :
    firstLongBreak l = none ↔ ∀ p ∈ l, breakDurationHours p ≤ 2 := by
  induction l with
  | nil => simp [firstLongBreak]
  | cons p rest ih =>
    by_cases hp : 2 < breakDurationHours p
    · simp [firstLongBreak, hp]
    · simp [firstLongBreak, hp, ih, not_lt.mp hp]

lemma firstLongBreak_eq_some (l : List (Int × Int)) (d : ℚ)
    (h : firstLongBreak l = some d) :
    ∃ (i : Nat) (p : Int × Int), l[i]? = some p ∧ d = breakDurationHours p ∧
      2 < breakDurationHours p ∧
      ∀ q ∈ l.take i, breakDurationHours q ≤ 2 := by
  induction l with
  | nil => simp [firstLongBreak] at h
  | cons p rest ih =>
    by_cases hp : 2 < breakDurationHours p
    · rw [firstLongBreak, if_pos hp, Option.some_inj] at h
      exact ⟨0, p, by simp, h.symm, hp, by simp⟩
    · rw [firstLongBreak, if_neg hp] at h
      obtain ⟨i, q, hq, hd, hgt, hall⟩ := ih h
      refine ⟨i + 1, q, by simpa using hq, hd, hgt, ?_⟩
      intro r hr
      rcases List.mem_cons.mp (by simpa using hr) with rfl | hr'
      · exact not_lt.mp hp
      · exact hall r hr'

/-- C7: Problem 11 pairs the day's BreakStart/BreakEnd events by position
index up to `min(count BreakStart, count BreakEnd)` and emits at most one
"long break" issue per day, namely for the first index-paired couple whose
duration strictly exceeds two hours. -/
theorem c7_long_break (day : List Event) :
    ((breakStartsOf day).zip (breakEndsOf day)).length
        = min (breakStartsOf day).length (breakEndsOf day).length ∧
    (problem11Issues day).length ≤ 1 ∧
    (problem11Issues day ≠ [] ↔
      ∃ p ∈ (breakStartsOf day).zip (breakEndsOf day),
        2 < breakDurationHours p) ∧
    (∀ d : ℚ, problem11Issues day = [("Lange Pause", d)] →
      ∃ (i : Nat) (p : Int × Int),
        ((breakStartsOf day).zip (breakEndsOf day))[i]? = some p ∧
        d = breakDurationHours p ∧ 2 < breakDurationHours p ∧
        ∀ q ∈ ((breakStartsOf day).zip (breakEndsOf day)).take i,
          breakDurationHours q ≤ 2) := by
  refine ⟨List.length_zip _ _, ?_, ?_, ?_⟩
  · rw [problem11Issues]
    cases firstLongBreak ((breakStartsOf day).zip (breakEndsOf day)) <;> simp
  · rw [problem11Issues]
    cases hf : firstLongBreak ((breakStartsOf day).zip (breakEndsOf day)) with
    | none =>
      rw [firstLongBreak_eq_none_iff] at hf
      simp only [ne_eq, not_true_eq_false, false_iff]
      push_neg
      intro p hp
      exact hf p hp
    | some d =>
      simp only [ne_eq, List.cons_ne_self, not_false_eq_true, true_iff]
      obtain ⟨i, p, hip, _, hgt, _⟩ := firstLongBreak_eq_some _ _ hf
      exact ⟨p, List.mem_iff_getElem?.mpr ⟨i, hip⟩, hgt⟩
  · intro d hd
    rw [problem11Issues] at hd
    cases hf : firstLongBreak ((breakStartsOf day).zip (breakEndsOf day)) with
    | none => rw [hf] at hd; simp at hd
    | some d' =>
      rw [hf] at hd
      simp only [List.cons.injEq, Prod.mk.injEq, and_true, true_and] at hd
      rw [← hd]
      exact firstLongBreak_eq_some _ _ hf

/-- Witness for `c7_long_break`: a day with a 3-hour break (paired by
index) and a later 1-hour break emits exactly the single issue for the
first pair. -/
theorem c7_long_break_witness :
    (problem11Issues
        [⟨.checkIn, 28800⟩, ⟨.breakStart, 36000⟩, ⟨.breakEnd, 46800⟩,
         ⟨.breakStart, 50400⟩, ⟨.breakEnd, 54000⟩, ⟨.checkOut, 61200⟩]).length
      ≤ 1 ∧
    problem11Issues
        [⟨.checkIn, 28800⟩, ⟨.breakStart, 36000⟩, ⟨.breakEnd, 46800⟩,
         ⟨.breakStart, 50400⟩, ⟨.breakEnd, 54000⟩, ⟨.checkOut, 61200⟩] ≠ [] :=
  ⟨(c7_long_break _).2.1,
    ((c7_long_break _).2.2.1).mpr
      ⟨(36000, 46800), by decide, by norm_num [breakDurationHours]⟩⟩

/-! ### Payroll export (`generate_excel_report`, app.py lines 360-400) -/

/-- One row of the log sheet: `(Mitarbeiter, Aktion, Zeitstempel)`. -/
structure LogRow where
  employee : String
  action : Action
  timestamp : Int
deriving DecidableEq, Repr

/-- Calendar day of a timestamp (`Zeitstempel.dt.date`), as a day number. -/
def tsDate (t : Int) : Int := Int.fdiv t 86400

/-- The optional inclusive date filter of `generate_excel_report`; it is
applied only when both bounds are given (`if start_date and end_date`). -/
def inDateRange (range : Option (Int × Int)) (t : Int) : Bool :=
  match range with
  | none => true
  | some (s, e) => decide (s ≤ tsDate t) && decide (tsDate t ≤ e)

/-- `df[df['Mitarbeiter'] == employee]`, projected to the employee's
events. -/
def eventsFor (df : List LogRow) (employee : String) : List Event :=
  (df.filter (fun r => r.employee == employee)).map
    (fun r => ⟨r.action, r.timestamp⟩)

/-- `round(x, 2)`: round to two decimal places. -/
def round2 (q : ℚ) : ℚ := (round (q * 100) : ℤ) / 100

/-- One row of the payroll summary sheet:
`(Mitarbeiter, Gesamtstunden, 'Arbeitstage (8h)')`. -/
structure ReportRow where
  employee : String
  gesamtstunden : ℚ
  arbeitstage : ℚ
deriving DecidableEq, Repr

/-- Total reconstructed hours of one employee over the date-filtered rows. -/
def totalHoursInRange (df : List LogRow) (range : Option (Int × Int))
    (employee : String) : ℚ :=
  (calculate_work_sessions
    (eventsFor (df.filter (fun r => inDateRange range r.timestamp)) employee)
    true).2.1

/-- One iteration of the `for employee in get_employees()` loop of
`generate_excel_report`: append a summary row only when
`total_hours > 0`. -/
def reportStep (df : List LogRow) (range : Option (Int × Int))
    (acc : List ReportRow) (employee : String) : List ReportRow :=
  let filtered := df.filter (fun r => inDateRange range r.timestamp)
  let totalHours :=
    (calculate_work_sessions (eventsFor filtered employee) true).2.1
  if 0 < totalHours then
    acc ++ [⟨employee, round2 totalHours, round2 (totalHours / 8)⟩]
  else acc

/-- The summary rows of `generate_excel_report` over the employee list of
the credential store. -/
def generate_excel_report (employees : List String) (df : List LogRow)
    (range : Option (Int × Int)) : List ReportRow :=
  employees.foldl (reportStep df range) []

lemma reportStep_eq (df : List LogRow) (range : Option (Int × Int))
    (acc : List ReportRow) (employee : String) :
    reportStep df range acc employee
      = if 0 < totalHoursInRange df range employee then
          acc ++ [⟨employee, round2 (totalHoursInRange df range employee),
                   round2 (totalHoursInRange df range employee / 8)⟩]
        else acc := rfl

lemma generate_excel_report_foldl (df : List LogRow)
    (range : Option (Int × Int)) :
    ∀ (employees : List String) (acc : List ReportRow),
      employees.foldl (reportStep df range) acc
        = acc ++ (employees.filter
              (fun e => decide (0 < totalHoursInRange df range e))).map
            (fun e => ⟨e, round2 (totalHoursInRange df range e),
                       round2 (totalHoursInRange df range e / 8)⟩) := by
  intro employees
  induction employees with
  | nil => intro acc; simp
  | cons e es ih =>
    intro acc
    rw [List.foldl_cons, reportStep_eq, List.filter_cons]
    by_cases h : 0 < totalHoursInRange df range e
    · rw [if_pos h, ih]
      simp [h]
    · rw [if_neg h, ih]
      simp [h]

/-- C5: the payroll export emits exactly the rows of the employees whose
reconstructed total hours over the (optionally date-filtered) events are
strictly positive, each row carrying the total rounded to two decimals and
the total divided by the constant 8 rounded to two decimals; employees
with zero total hours appear in no row. -/
theorem c5_payroll_rows (employees : List String) (df : List LogRow)
    (range : Option (Int × Int)) :
    generate_excel_report employees df range
      = (employees.filter
            (fun e => decide (0 < totalHoursInRange df range e))).map
          (fun e => ⟨e, round2 (totalHoursInRange df range e),
                     round2 (totalHoursInRange df range e / 8)⟩) ∧
    ∀ row ∈ generate_excel_report employees df range,
      row.employee ∈ employees ∧
      0 < totalHoursInRange df range row.employee ∧
      row.gesamtstunden = round2 (totalHoursInRange df range row.employee) ∧
      row.arbeitstage = round2 (totalHoursInRange df range row.employee / 8) := by
  have hmain := generate_excel_report_foldl df range employees []
  rw [List.nil_append] at hmain
  refine ⟨hmain, ?_⟩
  intro row hrow
  rw [generate_excel_report] at hrow
  rw [hmain] at hrow
  obtain ⟨e, he, rfl⟩ := List.mem_map.mp hrow
  obtain ⟨hee, hpe⟩ := List.mem_filter.mp he
  exact ⟨hee, of_decide_eq_true hpe, rfl, rfl⟩

/-- Witness for `c5_payroll_rows`: one employee with a two-hour session is
reported, one with no events is omitted. -/
theorem c5_payroll_rows_witness :
    generate_excel_report ["Alice", "Bob"]
        [⟨"Alice", .checkIn, 32400⟩, ⟨"Alice", .checkOut, 39600⟩] none
      = (["Alice", "Bob"].filter
            (fun e => decide (0 < totalHoursInRange
                [⟨"Alice", .checkIn, 32400⟩, ⟨"Alice", .checkOut, 39600⟩]
                none e))).map
          (fun e => ⟨e, round2 (totalHoursInRange
                [⟨"Alice", .checkIn, 32400⟩, ⟨"Alice", .checkOut, 39600⟩]
                none e),
              round2 (totalHoursInRange
                [⟨"Alice", .checkIn, 32400⟩, ⟨"Alice", .checkOut, 39600⟩]
                none e / 8)⟩) :=
  (c5_payroll_rows ["Alice", "Bob"]
    [⟨"Alice", .checkIn, 32400⟩, ⟨"Alice", .checkOut, 39600⟩] none).1

/-! ### Credential store (app.py lines 66-169 and the admin handlers) -/

/-- `str.lower()`, char by char. -/
def lowerString (s : String) : String := String.mk (s.data.map Char.toLower)

/-- `str.strip()`: drop whitespace at both ends. -/
def stripString (s : String) : String :=
  String.mk
    (((s.data.dropWhile Char.isWhitespace).reverse.dropWhile
        Char.isWhitespace).reverse)

/-- `username.lower().strip()`. -/
def normalizeUsername (u : String) : String := stripString (lowerString u)

/-- One row of the "Mitarbeiter" worksheet:
`(Benutzername, PasswortHash, Anzeigename)`. -/
structure Credential where
  username : String
  passwordHash : String
  displayName : String
deriving DecidableEq, Repr

/-- The credential worksheet contents, in row order. -/
abbrev CredStore := List Credential

/-- The keys of the credential dict built by `load_employees_from_sheet`
(app.py lines 66-86): lower-cased, trimmed usernames of the worksheet
rows, empty ones skipped.  Duplicates are kept in this list; the dict
itself has one entry per distinct key, counted by `credKeys`. -/
def loadedUsernames (store : CredStore) : List String :=
  (store.map (fun c => normalizeUsername c.username)).filter
    (fun u => !(u == ""))

/-- Distinct keys of the credential dict (`len(credentials)`). -/
def credKeys (store : CredStore) : List String := (loadedUsernames store).dedup

/-- `add_employee(username, password, display_name)` (app.py lines
110-129): reject a duplicate (case-insensitive) username, then reject
empty fields, else append one worksheet row.  `hashFn` stands for the
SHA-256 digest `hash_password`. -/
def add_employee (hashFn : String → String) (store : CredStore)
    (username password displayName : String) : Bool × CredStore :=
  let ul := normalizeUsername username
  if ul ∈ loadedUsernames store then (false, store)
  else if ul = "" ∨ password = "" ∨ displayName = "" then (false, store)
  else (true, store ++ [⟨ul, hashFn password, stripString displayName⟩])

/-- `worksheet.find(username_lower, in_column=1)` followed by
`delete_rows`: remove the first row whose username cell equals the key. -/
def eraseFirstUser : CredStore → String → CredStore
  | [], _ => []
  | c :: cs, u => if c.username == u then cs else c :: eraseFirstUser cs u

/-- `remove_employee(username)` (app.py lines 131-149). -/
def remove_employee (store : CredStore) (username : String) :
    Bool × CredStore :=
  let ul := normalizeUsername username
  if ul ∈ loadedUsernames store then (true, eraseFirstUser store ul)
  else (false, store)

/-- `find` followed by `update_cell(row, 2, hash)`: update the password
hash of the first row whose username cell equals the key. -/
def updateFirstHash : CredStore → String → String → CredStore
  | [], _, _ => []
  | c :: cs, u, h =>
    if c.username == u then { c with passwordHash := h } :: cs
    else c :: updateFirstHash cs u h

/-- `change_employee_password(username, new_password)` (app.py lines
151-169). -/
def change_employee_password (hashFn : String → String) (store : CredStore)
    (username newPassword : String) : Bool × CredStore :=
  let ul := normalizeUsername username
  if ul ∈ loadedUsernames store then
    (true, updateFirstHash store ul (hashFn newPassword))
  else (false, store)

/-- C6: adding an employee whose normalized username already exists in the
credential store fails and leaves the store exactly as it was — the
duplicate check runs before any append. -/
theorem c6_duplicate_add (hashFn : String → String) (store : CredStore)
    (username password displayName : String)
    (h : normalizeUsername username ∈ loadedUsernames store) :
    add_employee hashFn store username password displayName
      = (false, store) := by
  simp [add_employee, h]

/-- Witness for `c6_duplicate_add`: adding `"ALICE "` over an existing
`"alice"` row changes nothing. -/
theorem c6_duplicate_add_witness :
    normalizeUsername "ALICE "
        ∈ loadedUsernames [⟨"alice", "h1", "Alice"⟩] ∧
    add_employee (fun p => p) [⟨"alice", "h1", "Alice"⟩] "ALICE " "pw" "Alice2"
      = (false, [⟨"alice", "h1", "Alice"⟩]) :=
  ⟨by decide,
    c6_duplicate_add (fun p => p) [⟨"alice", "h1", "Alice"⟩]
      "ALICE " "pw" "Alice2" (by decide)⟩

/-- The admin operations that mutate the credential store through the UI. -/
inductive AdminOp where
  | addEmp (username password displayName : String)
  | removeEmp (username : String)
  | changePw (username newPassword : String)

/-- Effect of one admin operation on the worksheet.  The "Mitarbeiter
entfernen" button (app.py lines 578-587) guards `remove_employee` behind
`len(credentials) > 1`. -/
def applyOp (hashFn : String → String) (store : CredStore) :
    AdminOp → CredStore
  | .addEmp u p n => (add_employee hashFn store u p n).2
  | .removeEmp u =>
    if 1 < (credKeys store).length then (remove_employee store u).2 else store
  | .changePw u p => (change_employee_password hashFn store u p).2

/-- Credential stores reachable from `init` through admin operations. -/
inductive Reach (hashFn : String → String) : CredStore → CredStore → Prop where
  | refl (s : CredStore) : Reach hashFn s s
  | step (s t : CredStore) (op : AdminOp) :
      Reach hashFn s t → Reach hashFn s (applyOp hashFn t op)

lemma eraseFirstUser_length_ge (u : String) :
    ∀ l : CredStore, l.length ≤ (eraseFirstUser l u).length + 1 := by
  intro l
  induction l with
  | nil => simp [eraseFirstUser]
  | cons c cs ih =>
    by_cases hc : c.username == u
    · simp [eraseFirstUser, hc]
    · simp only [eraseFirstUser, hc, Bool.false_eq_true, if_false,
        List.length_cons]
      omega

lemma updateFirstHash_length (u h : String) :
    ∀ l : CredStore, (updateFirstHash l u h).length = l.length := by
  intro l
  induction l with
  | nil => rfl
  | cons c cs ih =>
    by_cases hc : c.username == u <;>
      simp [updateFirstHash, hc, ih]

lemma credKeys_length_le (store : CredStore) :
    (credKeys store).length ≤ store.length := by
  calc (credKeys store).length ≤ (loadedUsernames store).length :=
        (List.dedup_sublist _).length_le
    _ ≤ (store.map (fun c => normalizeUsername c.username)).length :=
        List.length_filter_le _ _
    _ = store.length := List.length_map _ _

lemma applyOp_length_ge (hashFn : String → String) (store : CredStore)
    (op : AdminOp) : min store.length 1 ≤ (applyOp hashFn store op).length := by
  cases op with
  | addEmp u p n =>
    rw [applyOp, add_employee]
    split
    · simp
    · split
      · simp
      · simp
  | removeEmp u =>
    rw [applyOp]
    split
    · next hgt =>
      have hle := credKeys_length_le store
      rw [remove_employee]
      split
      · have := eraseFirstUser_length_ge (normalizeUsername u) store
        simp only []
        omega
      · simp
    · omega
  | changePw u p =>
    rw [applyOp, change_employee_password]
    split
    · rw [updateFirstHash_length]; omega
    · simp

/-- C9: starting from any credential store with at least one row, every
store reachable through the admin operations keeps at least one row,
because the removal handler rejects removal when only one credential is
left — and that rejection leaves the store unchanged. -/
theorem c9_last_credential (hashFn : String → String) (init s : CredStore)
    (hinit : 1 ≤ init.length) (hr : Reach hashFn init s) :
    1 ≤ s.length ∧
    ∀ u, (credKeys s).length ≤ 1 →
      applyOp hashFn s (.removeEmp u) = s := by
  have hlen : 1 ≤ s.length := by
    induction hr with
    | refl => exact hinit
    | step t op hr' ih =>
      have := applyOp_length_ge hashFn t op
      omega
  refine ⟨hlen, ?_⟩
  intro u hle
  rw [applyOp, if_neg (by omega)]

/-- Witness for `c9_last_credential`: from a single-row store, the removal
handler refuses and the row count stays 1. -/
theorem c9_last_credential_witness :
    1 ≤ ([⟨"alice", "h1", "Alice"⟩] : CredStore).length ∧
    1 ≤ (applyOp (fun p => p) [⟨"alice", "h1", "Alice"⟩]
          (.removeEmp "alice")).length ∧
    applyOp (fun p => p) [⟨"alice", "h1", "Alice"⟩] (.removeEmp "alice")
      = [⟨"alice", "h1", "Alice"⟩] := by
  have h := c9_last_credential (fun p => p) [⟨"alice", "h1", "Alice"⟩]
    (applyOp (fun p => p) [⟨"alice", "h1", "Alice"⟩] (.removeEmp "alice"))
    (by decide)
    (Reach.step _ _ (.removeEmp "alice") (Reach.refl _))
  have h2 := c9_last_credential (fun p => p) [⟨"alice", "h1", "Alice"⟩]
    [⟨"alice", "h1", "Alice"⟩] (by decide) (Reach.refl _)
  exact ⟨by decide, h.1, h2.2 "alice" (by decide)⟩

/-- C10: emitting a session at CheckOut resets the open check-in and the
accumulated break/site-visit totals but keeps an open BreakStart (and
SiteVisitStart); consequently a BreakEnd after a subsequent CheckIn pairs
with the BreakStart of the previous session, and that break time is
subtracted from the next emitted session's hours. -/
theorem c10_open_break_survives_checkout :
    (∀ (s : RState) (t ci : Int), s.checkInTime = some ci →
      (step true s ⟨.checkOut, t⟩).breakStart = s.breakStart ∧
      (step true s ⟨.checkOut, t⟩).siteVisitStart = s.siteVisitStart ∧
      (step true s ⟨.checkOut, t⟩).checkInTime = none ∧
      (step true s ⟨.checkOut, t⟩).totalBreakTime = 0 ∧
      (step true s ⟨.checkOut, t⟩).totalSiteVisitTime = 0) ∧
    (∀ a1 b1 c1 a2 b2 c2 : Int,
      (processEvents true
        [⟨.checkIn, a1⟩, ⟨.breakStart, b1⟩, ⟨.checkOut, c1⟩,
         ⟨.checkIn, a2⟩, ⟨.breakEnd, b2⟩, ⟨.checkOut, c2⟩]).sessions
      = [⟨a1, c1, ((c1 : ℚ) - (a1 : ℚ)) / 3600, 0, 0⟩,
         ⟨a2, c2,
          (((c2 : ℚ) - (a2 : ℚ)) - ((b2 : ℚ) - (b1 : ℚ))) / 3600,
          ((b2 : ℚ) - (b1 : ℚ)) / 3600, 0⟩]) := by
  constructor
  · intro s t ci h
    simp [step, h]
  · intro a1 b1 c1 a2 b2 c2
    simp only [processEvents, List.foldl_cons, List.foldl_nil, step,
      initState]
    norm_num [List.cons.injEq, Session.mk.injEq]

end Timekeeper
